import Mathlib

/-
  Verification development for the proposal_core spreadsheet pipeline.

  Shallow embedding of src/proposal_core.py: cell values are modeled as
  `String` (openpyxl's `None` cell value is modeled as the empty string,
  other values as their `str()` rendering), a sheet is the list of its rows
  (`List (List String)`, row r / column c of openpyxl being 1-based), and
  Python exceptions are modeled with `Except String`.
-/

namespace Proposal

/-- Embeds the test `pat` is a leading piece of `s` (used to build Python's
substring containment `pat in s`). -/
def hasLead : List Char → List Char → Bool
  | [], _ => true
  | _ :: _, [] => false
  | p :: ps, c :: cs => p == c && hasLead ps cs

/-- Embeds Python's substring containment `pat in s` on char lists. -/
def hasSubL (pat : List Char) : List Char → Bool
  | [] => hasLead pat []
  | c :: rest => hasLead pat (c :: rest) || hasSubL pat rest

/-- Embeds Python's substring containment `pat in s` for strings. -/
def hasSub (pat s : String) : Bool := hasSubL pat.data s.data

/-- Embeds Python's `str.strip()` on char lists (drop whitespace on both ends). -/
def stripL (l : List Char) : List Char :=
  ((l.dropWhile Char.isWhitespace).reverse.dropWhile Char.isWhitespace).reverse

/-- Embeds Python's `str.strip()`. -/
def strip (s : String) : String := ⟨stripL s.data⟩

/-- Embeds `str(x).strip() if x else ""` applied to a cell value
(the modeled falsy value is the empty string). -/
def cellStr (v : String) : String := if v = "" then "" else strip v

/-- Embeds `col0.replace(" ", "")` (proposal_core.py line 111): removes every
ASCII space character. -/
def removeSpaces (s : String) : String := ⟨s.data.filter (fun c => c ≠ ' ')⟩

/-- Embeds one left-to-right pass of Python's
`re.sub(r'(선택)\s*(\d+)', r'\1 \2', text)` (proposal_core.py lines 167-168 and
line 705).  At each position: if the text starts with the token 선택 followed by
a (possibly empty) greedy whitespace run and a non-empty greedy digit run, the
match is replaced by the token, one space, and the digits, and scanning resumes
after the match; otherwise scanning advances one character.  The `fuel`
argument (instantiated with the length of the list) only makes the recursion
structural; it never runs out. -/
def normGo : Nat → List Char → List Char
  | 0, l => l
  | _ + 1, [] => []
  | f + 1, c :: rest =>
    if c = '선' then
      match rest with
      | '택' :: rest2 =>
        let afterWs := rest2.dropWhile Char.isWhitespace
        let ds := afterWs.takeWhile Char.isDigit
        if ds = [] then c :: normGo f rest
        else '선' :: '택' :: ' ' :: (ds ++ normGo f (afterWs.drop ds.length))
      | _ => c :: normGo f rest
    else c :: normGo f rest

/-- Embeds `re.sub(r'(선택)\s*(\d+)', r'\1 \2', text)` on char lists. -/
def normSub (l : List Char) : List Char := normGo l.length l

/-- Embeds `normalize_text` (proposal_core.py lines 167-168). -/
def normalize_text (s : String) : String := ⟨normSub s.data⟩

/-- Embeds `get_val_display` (proposal_core.py lines 170-174), the HTML
renderer's cell normalization. -/
def get_val_display (val : String) : String :=
  if val = "" ∨ val = "X" ∨ val = "x" ∨ val = "-" ∨ val = "미선택" then ""
  else if val = "O" ∨ val = "o" ∨ val = "○" ∨ hasSub "기본" val = true then "O"
  else if hasSub "선택" val = true then normalize_text val
  else val

/-- Embeds `norm` (proposal_core.py lines 703-707), the workbook renderer's
cell normalization. -/
def norm (v : String) : String :=
  if v = "" ∨ v = "-" ∨ v = "미선택" ∨ v = "X" then ""
  else if hasSub "선택" v = true then normalize_text v
  else if hasSub "O" v = true ∨ hasSub "기본" v = true then "O"
  else v

/-- Embeds the inner counting loop shared by both merge computations
(proposal_core.py lines 196-199 and 735-737): the number of consecutive
leading entries of the list equal to `v`. -/
def spanCount (v : String) : List String → Nat
  | [] => 0
  | w :: ws => if w = v then spanCount v ws + 1 else 0

/-- Embeds one column of the HTML rowspan/skip computation of
`render_table_html` (proposal_core.py lines 189-200).  The result lists, per
row, the pair `(rowspan_map value, skip_map value)`.  The first argument is
the number of rows already marked as skipped (absorbed into the span above):
the imperative code marks exactly the next `span - 1` rows after a run head,
so a pending-skip counter reproduces the skip_map state. -/
def htmlSpanAux : Nat → List String → List (Nat × Bool)
  | _, [] => []
  | k + 1, _ :: rest => (1, true) :: htmlSpanAux k rest
  | 0, v :: rest =>
    if v = "" then (1, false) :: htmlSpanAux 0 rest
    else (spanCount v rest + 1, false) :: htmlSpanAux (spanCount v rest) rest

/-- The HTML rowspan/skip map of one grid column (proposal_core.py lines 189-200). -/
def htmlSpanSkip (col : List String) : List (Nat × Bool) := htmlSpanAux 0 col

/-- Embeds one column of the workbook merge loop of `write_section`
(proposal_core.py lines 728-743).  Arguments: remaining fuel (instantiated
with the column length; each step consumes at least one row so it never runs
out), the current row index `r`, and the remaining rows.  The result is the
list of merged ranges as `(start row index, span)` pairs, recorded only when
`span > 1`, with `r` advanced by `span` exactly as the `while` loop does. -/
def wbGo : Nat → Nat → List String → List (Nat × Nat)
  | 0, _, _ => []
  | _ + 1, _, [] => []
  | f + 1, r, v :: rest =>
    if v = "" then wbGo f (r + 1) rest
    else if spanCount v rest = 0 then wbGo f (r + 1) rest
    else (r, spanCount v rest + 1) :: wbGo f (r + spanCount v rest + 1) (rest.drop (spanCount v rest))

/-- The workbook merged ranges of one grid column (proposal_core.py lines 728-743). -/
def wbMerges (col : List String) : List (Nat × Nat) := wbGo col.length 0 col

/-- Reads the merged ranges `(start row, span)` off an HTML rowspan/skip map,
starting at row index `r`: a row that is not skipped and has rowspan above 1
is the head of a merged range. -/
def spanMerges : Nat → List (Nat × Bool) → List (Nat × Nat)
  | _, [] => []
  | r, (s, b) :: rest =>
    if b = false ∧ s > 1 then (r, s) :: spanMerges (r + 1) rest
    else spanMerges (r + 1) rest

/-- Column `c` (0-based) of a grid given as a list of rows; grids built by the
renderers are rectangular (`Item.values` always has one entry per plan), so
the default value of `getD` is never consulted on them. -/
def colOf (grid : List (List String)) (c : Nat) : List String :=
  grid.map (fun row => row.getD c "")

/-- The two renderers' normalizations agree on every cell of column `c`. -/
def colAgrees (grid : List (List String)) (c : Nat) : Bool :=
  (colOf grid c).all (fun v => get_val_display v == norm v)

/-- Per-group default allowance counts `{'a': ..., 'b': ..., 'c': ...}`. -/
structure Counts where
  a : Nat
  b : Nat
  c : Nat
deriving DecidableEq, Repr

/-- Embeds `ws.cell(row=r, column=c).value` (1-based coordinates); a cell
outside the populated area holds `None`, modeled as the empty string. -/
def cellAt (sheet : List (List String)) (r c : Nat) : String :=
  (sheet.getD (r - 1) []).getD (c - 1) ""

/-- The numeric value of an ASCII digit character. -/
def digitVal (c : Char) : Nat := c.toNat - '0'.toNat

/-- Embeds `int(nums[0])` for `nums = re.findall(r'\d+', s)`
(proposal_core.py lines 28-30): the first maximal digit run of `s`,
as a number, if any. -/
def firstNumL : List Char → Option Nat
  | [] => none
  | c :: rest =>
    if c.isDigit then some ((c :: rest.takeWhile Char.isDigit).foldl (fun n d => n * 10 + digitVal d) 0)
    else firstNumL rest

/-- Embeds `int(re.sub(r'[^0-9]', '', val))` with `except: price_num = 0`
(proposal_core.py lines 69-70): the number formed by every digit character of
the label in order, and 0 when the label has no digit (the `int('')` failure
path). -/
def parsePriceNum (s : String) : Nat :=
  let ds := s.data.filter Char.isDigit
  if ds = [] then 0 else ds.foldl (fun n c => n * 10 + digitVal c) 0

/-- Embeds one iteration of the row loop of `scan_default_counts`
(proposal_core.py lines 16-32).  State: `(current_cat, counts)`. -/
def scanStep (sheet : List (List String)) (colIdx : Nat) (st : String × Counts) (r : Nat) :
    String × Counts :=
  let cellGroup := cellStr (cellAt sheet r 1)
  let cellVal := cellStr (cellAt sheet r colIdx)
  let cat :=
    if hasSub "A그룹" cellGroup = true then "a"
    else if hasSub "B그룹" cellGroup = true then "b"
    else if hasSub "C그룹" cellGroup = true then "c"
    else st.1
  let counts := st.2
  let counts :=
    if (cat = "a" ∨ cat = "b" ∨ cat = "c") ∧ hasSub "선택" cellVal = true then
      match firstNumL cellVal.data with
      | some n =>
        if cat = "a" then (if n > counts.a then { counts with a := n } else counts)
        else if cat = "b" then (if n > counts.b then { counts with b := n } else counts)
        else (if n > counts.c then { counts with c := n } else counts)
      | none => counts
    else counts
  (cat, counts)

/-- Embeds `scan_default_counts` (proposal_core.py lines 10-33): walk the rows
`start_row + 1 .. min(start_row + 150, max_row)` tracking the current group
from column 1 and recording the maximal `선택 N` number per group under
column `col_idx`. -/
def scanDefaultCounts (sheet : List (List String)) (colIdx startRow : Nat) : Counts :=
  let maxScan := min (startRow + 150) sheet.length
  ((List.range' (startRow + 1) (maxScan - startRow)).foldl (scanStep sheet colIdx)
    ("", ⟨0, 0, 0⟩)).2

/-- Embeds the `manual_defaults` table (proposal_core.py lines 56-63). -/
def manualDefaults : Nat → Option Counts
  | 25 => some ⟨3, 0, 0⟩
  | 30 => some ⟨3, 0, 0⟩
  | 35 => some ⟨4, 0, 0⟩
  | 40 => some ⟨5, 0, 0⟩
  | 45 => some ⟨4, 1, 0⟩
  | 50 => some ⟨5, 1, 0⟩
  | 60 => some ⟨3, 1, 1⟩
  | 70 => some ⟨5, 1, 1⟩
  | 80 => some ⟨5, 2, 1⟩
  | 90 => some ⟨5, 3, 1⟩
  | 100 => some ⟨3, 3, 2⟩
  | _ => none

/-- One price-tier column record as appended to `price_cols`
(proposal_core.py lines 77-82). -/
structure PriceCol where
  priceTxt : String
  colIdx : Nat
  defaults : Counts
  sortKey : Nat
deriving DecidableEq, Repr

/-- Embeds the header scan of `load_price_options` (proposal_core.py lines
43-48): the 1-based index of the first row, among the first 20, containing a
cell whose text contains 만원; `r` is the index of the first remaining row. -/
def findHeaderAux : Nat → List (List String) → Option Nat
  | _, [] => none
  | r, row :: rest =>
    if row.any (fun v => hasSub "만원" v) then some r else findHeaderAux (r + 1) rest

/-- The header row index found by `load_price_options`, if any. -/
def findHeaderRow (sheet : List (List String)) : Option Nat :=
  findHeaderAux 1 (sheet.take 20)

/-- Embeds the candidate loop of `load_price_options` (proposal_core.py lines
65-82): enumerate the header row's cells (0-based `idx`), keep those whose
stripped text contains 만원 but contains neither excluded label 10만원 nor
15만원, and build the record with the digits-derived price number and either
the manual default counts or the scanned ones. -/
def candAux (sheet : List (List String)) (hIdx : Nat) : Nat → List String → List PriceCol
  | _, [] => []
  | idx, v :: rest =>
    let val := cellStr v
    if hasSub "만원" val = true ∧ hasSub "10만원" val = false ∧ hasSub "15만원" val = false then
      let colIdx := idx + 1
      let priceNum := parsePriceNum val
      let defaults :=
        match manualDefaults priceNum with
        | some d => d
        | none => scanDefaultCounts sheet colIdx hIdx
      ⟨val, colIdx, defaults, priceNum⟩ :: candAux sheet hIdx (idx + 1) rest
    else candAux sheet hIdx (idx + 1) rest

/-- Stable insertion of `x` into a list sorted ascending by `sortKey`: `x` is
placed after every element with a strictly smaller key and before the first
element whose key is not smaller, preserving the original order of equal
keys. -/
def insort (x : PriceCol) : List PriceCol → List PriceCol
  | [] => [x]
  | y :: ys => if y.sortKey < x.sortKey then y :: insort x ys else x :: y :: ys

/-- Embeds `price_cols.sort(key=lambda x: x['sort_key'])` (proposal_core.py
line 85): Python's sort is a stable ascending sort by key, whose output this
stable insertion sort reproduces exactly. -/
def sortCols : List PriceCol → List PriceCol
  | [] => []
  | p :: ps => insort p (sortCols ps)

/-- Embeds `load_price_options` (proposal_core.py lines 35-86) on an
already-loaded sheet: locate the header row among the first 20 rows (when
none is found the function returns the sentinel `(None, [])`, lines 50-51),
build the tier-column candidates from the header row's cells, and sort them
ascending by `sort_key`. -/
def loadPriceOptions (sheet : List (List String)) : Option Nat × List PriceCol :=
  match findHeaderRow sheet with
  | none => (none, [])
  | some h => (some h, sortCols (candAux sheet h 0 (sheet.getD (h - 1) [])))

/-- No cell within the scan window (the first 20 rows) contains the tier-unit
marker 만원. -/
def noUnitMarker (sheet : List (List String)) : Bool :=
  (sheet.take 20).all (fun row => row.all (fun v => !(hasSub "만원" v)))

/-- A plan dict as consumed by `parse_data_from_excel`: `name`, `col_idx`,
and the optional override rules accessed via `plan.get('a_rule', ...)`
(an absent key is `none`). -/
structure Plan where
  name : String
  colIdx : Nat
  aRule : Option String
  bRule : Option String
  cRule : Option String
deriving DecidableEq, Repr

/-- One plan's per-category carry-forward cache `fill_cache[idx]`
(proposal_core.py line 104); Python's `None` entry is modeled as the empty
string (a cached value always contains 선택, hence is never itself empty). -/
structure Cache where
  a : String
  b : String
  c : String
deriving DecidableEq, Repr

/-- One parsed row entry (proposal_core.py line 149). -/
structure Item where
  category : String
  name : String
  desc : String
  values : List String
deriving DecidableEq, Repr

/-- The `parsed_data` category buckets (proposal_core.py line 93). -/
structure ParsedData where
  A : List Item
  B : List Item
  C : List Item
  EQUIP : List Item
  COMMON_BLOOD : List Item
deriving DecidableEq, Repr

/-- One `summary_info` entry (proposal_core.py lines 96-102). -/
structure Summary where
  name : String
  a : String
  b : String
  c : String
deriving DecidableEq, Repr

/-- The mutable walking state of `parse_data_from_excel`: the current main
category string and the per-plan carry-forward caches. -/
structure PState where
  cat : String
  caches : List Cache
deriving DecidableEq, Repr

/-- Embeds the category-marker transitions (proposal_core.py lines 113-117),
applied to the space-stripped column-1 text; an unrecognized marker leaves
the sticky state unchanged. -/
def updateCat (cat col0clean : String) : String :=
  if hasSub "A그룹" col0clean = true then "A"
  else if hasSub "B그룹" col0clean = true then "B"
  else if hasSub "C그룹" col0clean = true then "C"
  else if hasSub "장비검사" col0clean = true ∨ hasSub "소화기검사" col0clean = true then "EQUIP"
  else if hasSub "혈액" col0clean = true ∧ hasSub "소변" col0clean = true then "COMMON"
  else cat

/-- The cache slot of the given main category (only called with A, B or C). -/
def getCache (c : Cache) (cat : String) : String :=
  if cat = "A" then c.a else if cat = "B" then c.b else c.c

/-- Writes the cache slot of the given main category. -/
def setCache (c : Cache) (cat : String) (v : String) : Cache :=
  if cat = "A" then { c with a := v } else if cat = "B" then { c with b := v } else { c with c := v }

/-- Embeds the rule lookup (proposal_core.py lines 139-142):
`plan.get('x_rule', '')` for the current category. -/
def ruleFor (p : Plan) (cat : String) : String :=
  if cat = "A" then p.aRule.getD ""
  else if cat = "B" then p.bRule.getD ""
  else if cat = "C" then p.cRule.getD ""
  else ""

/-- Embeds the carry-forward step (proposal_core.py lines 133-136) for one
cell of an A/B/C category: given the cached value `cv` (empty = no cache) and
the raw cell value `val`, returns the new cache value and the resulting cell
value.  A cell containing 선택 refreshes the cache; a blank cell inherits a
present cache; a non-blank cell without 선택 clears the cache. -/
def carryStep (cv val : String) : String × String :=
  if hasSub "선택" val = true then (val, val)
  else if val = "" ∧ cv ≠ "" then (cv, cv)
  else if val ≠ "" then ("", val)
  else (cv, val)

/-- Embeds the override step (proposal_core.py lines 138-144): when the
(possibly inherited) value contains 선택 and the plan's group rule is
non-empty, the rule `-` forces the empty string and any other rule text
replaces the value. -/
def applyRule (rule val : String) : String :=
  if hasSub "선택" val = true ∧ rule ≠ "" then (if rule = "-" then "" else rule) else val

/-- Embeds the negation marker (proposal_core.py line 146): a value containing
미선택 becomes the empty string. -/
def negMark (val : String) : String := if hasSub "미선택" val = true then "" else val

/-- Embeds the per-plan body of the value loop (proposal_core.py lines
126-147): read the plan's bound cell (empty when the row is too short),
apply carry-forward and override for the A/B/C categories, then the 미선택
marker. -/
def processCell (cat : String) (p : Plan) (cache : Cache) (row : List String) : Cache × String :=
  let colIdx := p.colIdx - 1
  let val := if colIdx < row.length then cellStr (row.getD colIdx "") else ""
  if cat = "A" ∨ cat = "B" ∨ cat = "C" then
    let s := carryStep (getCache cache cat) val
    (setCache cache cat s.1, negMark (applyRule (ruleFor p cat) s.2))
  else
    (cache, negMark val)

/-- The value loop over all plans (proposal_core.py lines 125-147), threading
each plan's cache; yields the updated caches and `row_vals`. -/
def processCells (cat : String) (row : List String) : List Plan → List Cache → List Cache × List String
  | [], _ => ([], [])
  | _ :: _, [] => ([], [])
  | p :: ps, cache :: cs =>
    let s := processCell cat p cache row
    let rest := processCells cat row ps cs
    (s.1 :: rest.1, s.2 :: rest.2)

/-- Embeds the bucket dispatch (proposal_core.py lines 151-155); the COMMON
category is stored under the COMMON_BLOOD key, and an empty or unrecognized
category drops the entry. -/
def appendBucket (cat : String) (e : Item) (pd : ParsedData) : ParsedData :=
  if cat = "A" then { pd with A := pd.A ++ [e] }
  else if cat = "B" then { pd with B := pd.B ++ [e] }
  else if cat = "C" then { pd with C := pd.C ++ [e] }
  else if cat = "EQUIP" then { pd with EQUIP := pd.EQUIP ++ [e] }
  else if cat = "COMMON" then { pd with COMMON_BLOOD := pd.COMMON_BLOOD ++ [e] }
  else pd

/-- Embeds one iteration of the row loop of `parse_data_from_excel`
(proposal_core.py lines 107-155).  A row of fewer than two cells is skipped
before anything else; the category marker is processed before the column-2
skip test (so marker rows update the sticky state even when skipped); a data
row then reads its description cell `row[2]` unconditionally, which in Python
raises `IndexError: tuple index out of range` when the row has exactly two
cells (line 122); finally the per-plan values are built and the entry is
appended to its bucket. -/
def stepRow (plans : List Plan) (st : PState) (pd : ParsedData) (row : List String) :
    Except String (PState × ParsedData) :=
  if row.length < 2 then .ok (st, pd)
  else
    let col0 := cellStr (row.getD 0 "")
    let col1 := cellStr (row.getD 1 "")
    let cat := updateCat st.cat (removeSpaces col0)
    if col1 = "" ∨ col1 = "검진항목" ∨ col1 = "내용" then .ok (⟨cat, st.caches⟩, pd)
    else if row.length < 3 then .error "IndexError: tuple index out of range"
    else
      let desc := cellStr (row.getD 2 "")
      let subCat := if cat = "EQUIP" ∧ col0 ≠ "" then col0 else ""
      let s := processCells cat row plans st.caches
      .ok (⟨cat, s.1⟩, appendBucket cat ⟨subCat, col1, desc, s.2⟩ pd)

/-- The row loop of `parse_data_from_excel` over the remaining rows. -/
def parseRows (plans : List Plan) : List (List String) → PState → ParsedData →
    Except String (PState × ParsedData)
  | [], st, pd => .ok (st, pd)
  | row :: rows, st, pd =>
    match stepRow plans st pd row with
    | .error e => .error e
    | .ok s => parseRows plans rows s.1 s.2

/-- Embeds `parse_data_from_excel` (proposal_core.py lines 88-158) on an
already-loaded sheet: the summary echoes each plan's rules with default `-`
(lines 96-102), and the walk starts on the row after `header_row` with empty
buckets, an empty sticky category, and one empty cache per plan. -/
def parseData (sheet : List (List String)) (headerRow : Nat) (plans : List Plan) :
    Except String (ParsedData × List Summary) :=
  let summary := plans.map (fun p =>
    (⟨p.name, p.aRule.getD "-", p.bRule.getD "-", p.cRule.getD "-"⟩ : Summary))
  match parseRows plans (sheet.drop headerRow) ⟨"", List.replicate plans.length ⟨"", "", ""⟩⟩
      ⟨[], [], [], [], []⟩ with
  | .error e => .error e
  | .ok s => .ok (s.2, summary)

/-- All items of every bucket of a `ParsedData`. -/
def allItems (pd : ParsedData) : List Item :=
  pd.A ++ pd.B ++ pd.C ++ pd.EQUIP ++ pd.COMMON_BLOOD

theorem spanCount_le (v : String) : ∀ l : List String, spanCount v l ≤ l.length := by
  intro l
  induction l with
  | nil => simp [spanCount]
  | cons w ws ih =>
    simp only [spanCount, List.length_cons]
    by_cases h : w = v
    · rw [if_pos h]; omega
    · rw [if_neg h]; omega

theorem htmlSpanAux_pending : ∀ (l : List String) (k : Nat),
    htmlSpanAux k l = List.replicate (min k l.length) (1, true) ++ htmlSpanAux 0 (l.drop k) := by
  intro l
  induction l with
  | nil => intro k; simp [htmlSpanAux]
  | cons v rest ih =>
    intro k
    cases k with
    | zero => simp
    | succ k =>
      simp only [htmlSpanAux, List.length_cons, List.drop_succ_cons, Nat.succ_min_succ,
        List.replicate_succ, List.cons_append]
      rw [ih k]

theorem spanMerges_replicate : ∀ (n r : Nat) (t : List (Nat × Bool)),
    spanMerges r (List.replicate n (1, true) ++ t) = spanMerges (r + n) t := by
  intro n
  induction n with
  | zero => intro r t; simp
  | succ n ih =>
    intro r t
    simp only [List.replicate_succ, List.cons_append, spanMerges]
    rw [if_neg (by simp)]
    simp only [List.append_eq]
    rw [ih (r + 1) t]
    congr 1
    omega

theorem wbGo_eq_spanMerges : ∀ (f : Nat) (l : List String) (r : Nat), l.length ≤ f →
    wbGo f r l = spanMerges r (htmlSpanAux 0 l) := by
  intro f
  induction f with
  | zero =>
    intro l r h
    have hl : l = [] := List.eq_nil_of_length_eq_zero (Nat.le_zero.mp h)
    subst hl
    simp [wbGo, htmlSpanAux, spanMerges]
  | succ f ih =>
    intro l r h
    cases l with
    | nil => simp [wbGo, htmlSpanAux, spanMerges]
    | cons v rest =>
      simp only [List.length_cons] at h
      have hr : rest.length ≤ f := Nat.succ_le_succ_iff.mp h
      by_cases hv : v = ""
      · subst hv
        simp only [wbGo, if_pos rfl, htmlSpanAux]
        rw [ih rest (r + 1) hr]
        simp [spanMerges]
      · by_cases hk : spanCount v rest = 0
        · simp only [wbGo, if_neg hv, if_pos hk, htmlSpanAux, hk]
          rw [ih rest (r + 1) hr]
          simp [spanMerges]
        · simp only [wbGo, if_neg hv, if_neg hk, htmlSpanAux]
          rw [htmlSpanAux_pending rest (spanCount v rest),
            Nat.min_eq_left (spanCount_le v rest)]
          rw [spanMerges]
          rw [if_pos (by constructor; rfl; omega)]
          rw [spanMerges_replicate (spanCount v rest) (r + 1) _]
          rw [ih (rest.drop (spanCount v rest)) (r + spanCount v rest + 1)
            (by rw [List.length_drop]; omega)]
          congr 2
          omega

theorem wbMerges_eq_spanMerges (l : List String) :
    wbMerges l = spanMerges 0 (htmlSpanSkip l) :=
  wbGo_eq_spanMerges l.length l 0 (Nat.le_refl _)

theorem mem_insort (a x : PriceCol) : ∀ l : List PriceCol,
    a ∈ insort x l ↔ a = x ∨ a ∈ l := by
  intro l
  induction l with
  | nil => simp [insort]
  | cons y ys ih =>
    simp only [insort]
    by_cases h : y.sortKey < x.sortKey
    · rw [if_pos h]
      simp only [List.mem_cons, ih]
      try tauto
    · rw [if_neg h]
      simp only [List.mem_cons]
      try tauto

theorem mem_sortCols (a : PriceCol) : ∀ l : List PriceCol, a ∈ sortCols l → a ∈ l := by
  intro l
  induction l with
  | nil => intro h; simp [sortCols] at h
  | cons p ps ih =>
    intro h
    simp only [sortCols] at h
    rcases (mem_insort a p (sortCols ps)).mp h with rfl | h
    · exact List.mem_cons_self _ _
    · exact List.mem_cons_of_mem _ (ih h)

theorem sorted_insort (x : PriceCol) : ∀ l : List PriceCol,
    List.Sorted (fun a b : PriceCol => a.sortKey ≤ b.sortKey) l →
    List.Sorted (fun a b : PriceCol => a.sortKey ≤ b.sortKey) (insort x l) := by
  intro l
  induction l with
  | nil => intro _; simp [insort]
  | cons y ys ih =>
    intro hs
    rw [List.sorted_cons] at hs
    obtain ⟨hy, hys⟩ := hs
    simp only [insort]
    by_cases h : y.sortKey < x.sortKey
    · rw [if_pos h]
      rw [List.sorted_cons]
      refine ⟨?_, ih hys⟩
      intro b hb
      rcases (mem_insort b x ys).mp hb with rfl | hb
      · exact Nat.le_of_lt h
      · exact hy b hb
    · rw [if_neg h]
      rw [List.sorted_cons]
      refine ⟨?_, List.sorted_cons.mpr ⟨hy, hys⟩⟩
      intro b hb
      rcases List.mem_cons.mp hb with rfl | hb
      · exact Nat.le_of_not_lt h
      · exact Nat.le_trans (Nat.le_of_not_lt h) (hy b hb)

theorem sorted_sortCols : ∀ l : List PriceCol,
    List.Sorted (fun a b : PriceCol => a.sortKey ≤ b.sortKey) (sortCols l) := by
  intro l
  induction l with
  | nil => simp [sortCols]
  | cons p ps ih => exact sorted_insort p (sortCols ps) ih

theorem candAux_props (sheet : List (List String)) (hIdx : Nat) :
    ∀ (cells : List String) (i : Nat) (pc : PriceCol), pc ∈ candAux sheet hIdx i cells →
      pc.sortKey = parsePriceNum pc.priceTxt ∧ hasSub "10만원" pc.priceTxt = false ∧
      hasSub "15만원" pc.priceTxt = false := by
  intro cells
  induction cells with
  | nil => intro i pc h; simp [candAux] at h
  | cons v rest ih =>
    intro i pc h
    simp only [candAux] at h
    by_cases hc : hasSub "만원" (cellStr v) = true ∧ hasSub "10만원" (cellStr v) = false ∧
        hasSub "15만원" (cellStr v) = false
    · rw [if_pos hc] at h
      rcases List.mem_cons.mp h with rfl | h
      · exact ⟨rfl, hc.2.1, hc.2.2⟩
      · exact ih (i + 1) pc h
    · rw [if_neg hc] at h
      exact ih (i + 1) pc h

theorem findHeaderAux_none : ∀ (l : List (List String)) (r : Nat),
    (∀ row ∈ l, row.any (fun v => hasSub "만원" v) = false) → findHeaderAux r l = none := by
  intro l
  induction l with
  | nil => intro r _; rfl
  | cons row rest ih =>
    intro r h
    simp only [findHeaderAux]
    rw [if_neg (by simp [h row (List.mem_cons_self _ _)])]
    exact ih (r + 1) (fun x hx => h x (List.mem_cons_of_mem _ hx))

theorem processCells_len (cat : String) (row : List String) :
    ∀ (ps : List Plan) (cs : List Cache),
      (processCells cat row ps cs).1.length = min ps.length cs.length ∧
      (processCells cat row ps cs).2.length = min ps.length cs.length := by
  intro ps
  induction ps with
  | nil => intro cs; simp [processCells]
  | cons p ps ih =>
    intro cs
    cases cs with
    | nil => simp [processCells]
    | cons c cs =>
      simp only [processCells, List.length_cons, Nat.succ_min_succ]
      have h := ih cs
      exact ⟨by rw [h.1], by rw [h.2]⟩

theorem mem_appendBucket (cat : String) (e it : Item) (pd : ParsedData)
    (h : it ∈ allItems (appendBucket cat e pd)) : it ∈ allItems pd ∨ it = e := by
  unfold appendBucket at h
  split_ifs at h <;>
    simp only [allItems, List.mem_append, List.mem_singleton] at h ⊢ <;>
    tauto

theorem negMark_no (v : String) : hasSub "미선택" (negMark v) = false := by
  unfold negMark
  by_cases h : hasSub "미선택" v = true
  · rw [if_pos h]; rfl
  · rw [if_neg h]
    exact Bool.eq_false_iff.mpr h

theorem stepRow_inv (plans : List Plan) (st : PState) (pd : ParsedData) (row : List String)
    (st' : PState) (pd' : ParsedData)
    (hlen : st.caches.length = plans.length)
    (hpd : ∀ it ∈ allItems pd, it.values.length = plans.length)
    (h : stepRow plans st pd row = .ok (st', pd')) :
    st'.caches.length = plans.length ∧ ∀ it ∈ allItems pd', it.values.length = plans.length := by
  simp only [stepRow] at h
  split_ifs at h with h1 h2 h3 h4
  · injection h with h'
    injection h' with ha hb
    subst ha
    subst hb
    exact ⟨hlen, hpd⟩
  · injection h with h'
    injection h' with ha hb
    subst hb
    rw [← ha]
    exact ⟨hlen, hpd⟩
  · try (injection h with h'; injection h' with ha hb; subst hb; subst ha)
    refine ⟨?_, ?_⟩
    · dsimp only
      rw [(processCells_len (updateCat st.cat (removeSpaces (cellStr (row.getD 0 ""))))
        row plans st.caches).1, hlen, Nat.min_self]
    · intro it hit
      rcases mem_appendBucket _ _ it pd hit with hold | rfl
      · exact hpd it hold
      · dsimp only
        rw [(processCells_len (updateCat st.cat (removeSpaces (cellStr (row.getD 0 ""))))
          row plans st.caches).2, hlen, Nat.min_self]
  · try (injection h with h'; injection h' with ha hb; subst hb; subst ha)
    refine ⟨?_, ?_⟩
    · dsimp only
      rw [(processCells_len (updateCat st.cat (removeSpaces (cellStr (row.getD 0 ""))))
        row plans st.caches).1, hlen, Nat.min_self]
    · intro it hit
      rcases mem_appendBucket _ _ it pd hit with hold | rfl
      · exact hpd it hold
      · dsimp only
        rw [(processCells_len (updateCat st.cat (removeSpaces (cellStr (row.getD 0 ""))))
          row plans st.caches).2, hlen, Nat.min_self]

theorem parseRows_inv (plans : List Plan) : ∀ (rows : List (List String)) (st : PState)
    (pd : ParsedData) (st' : PState) (pd' : ParsedData),
    st.caches.length = plans.length →
    (∀ it ∈ allItems pd, it.values.length = plans.length) →
    parseRows plans rows st pd = .ok (st', pd') →
    ∀ it ∈ allItems pd', it.values.length = plans.length := by
  intro rows
  induction rows with
  | nil =>
    intro st pd st' pd' h1 h2 h
    simp only [parseRows] at h
    injection h with h'
    injection h' with ha hb
    subst hb
    exact h2
  | cons row rows ih =>
    intro st pd st' pd' h1 h2 h
    simp only [parseRows] at h
    cases hs : stepRow plans st pd row with
    | error e => rw [hs] at h; cases h
    | ok s =>
      rw [hs] at h
      have hstep := stepRow_inv plans st pd row s.1 s.2 h1 h2 hs
      exact ih s.1 s.2 st' pd' hstep.1 hstep.2 h

theorem ws_not_digit (c : Char) (h : c.isWhitespace = true) : c.isDigit = false := by
  simp [Char.isWhitespace] at h
  rcases h with ((h | h) | h) | h <;> subst h <;> decide

theorem digit_not_ws (c : Char) (h : c.isDigit = true) : c.isWhitespace = false := by
  cases hw : c.isWhitespace
  · rfl
  · rw [ws_not_digit c hw] at h
    simp at h

theorem dropWhile_ws_append (ds : List Char) (hne : ds ≠ []) (hds : ∀ c ∈ ds, c.isDigit = true) :
    ∀ ws : List Char, (∀ c ∈ ws, c.isWhitespace = true) →
      (ws ++ ds).dropWhile Char.isWhitespace = ds := by
  intro ws
  induction ws with
  | nil =>
    intro _
    cases ds with
    | nil => cases hne rfl
    | cons d t =>
      simp only [List.nil_append, List.dropWhile_cons]
      rw [digit_not_ws d (hds d (List.mem_cons_self _ _))]
      simp
  | cons w ws ih =>
    intro hws
    simp only [List.cons_append, List.dropWhile_cons]
    rw [hws w (List.mem_cons_self _ _)]
    simp only [if_true]
    exact ih (fun c hc => hws c (List.mem_cons_of_mem _ hc))

theorem takeWhile_digit_self (ds : List Char) (hds : ∀ c ∈ ds, c.isDigit = true) :
    ds.takeWhile Char.isDigit = ds :=
  List.takeWhile_eq_self_iff.mpr hds

theorem normSub_token (ws ds : List Char) (hws : ∀ c ∈ ws, c.isWhitespace = true)
    (hne : ds ≠ []) (hds : ∀ c ∈ ds, c.isDigit = true) :
    normSub ('선' :: '택' :: (ws ++ ds)) = '선' :: '택' :: ' ' :: ds := by
  unfold normSub
  simp only [List.length_cons]
  simp only [normGo]
  rw [dropWhile_ws_append ds hne hds ws hws]
  rw [takeWhile_digit_self ds hds]
  rw [if_neg hne]
  rw [List.drop_length]
  have : (ws ++ ds).length = ws.length + ds.length := List.length_append ws ds
  rw [this]
  simp only [normGo, List.append_nil, if_true]

theorem hasSubL_head_false (p : Char) (ps : List Char) : ∀ l : List Char,
    (∀ c ∈ l, ¬c = p) → hasSubL (p :: ps) l = false := by
  intro l
  induction l with
  | nil => intro _; rfl
  | cons c rest ih =>
    intro h
    simp only [hasSubL, Bool.or_eq_false_iff]
    constructor
    · have hcp : (p == c) = false := by
        rw [beq_eq_false_iff_ne]
        exact fun hh => h c (List.mem_cons_self _ _) hh.symm
      simp [hasLead, hcp]
    · exact ih (fun x hx => h x (List.mem_cons_of_mem _ hx))

/-- Claim C1, corrected.  The two renderers compute merge runs with
functionally identical logic, so whenever the HTML normalization
`get_val_display` and the workbook normalization `norm` agree on every cell
value of a column, the normalized display values and the vertical merge-run
boundaries of that column coincide between the two outputs.  (The claim's
unconditional form is false: the two normalizations disagree on values such
as a lowercase `x`, see the counterexample.) -/
theorem claim_C1_cross_format (grid : List (List String)) (c : Nat)
    (h : colAgrees grid c = true) :
    (colOf grid c).map get_val_display = (colOf grid c).map norm ∧
    wbMerges ((colOf grid c).map norm) =
      spanMerges 0 (htmlSpanSkip ((colOf grid c).map get_val_display)) := by
  have hpt : ∀ v ∈ colOf grid c, get_val_display v = norm v := by
    intro v hv
    have hb := (List.all_eq_true.mp h) v hv
    exact eq_of_beq hb
  have hmap : (colOf grid c).map get_val_display = (colOf grid c).map norm :=
    List.map_congr_left hpt
  refine ⟨hmap, ?_⟩
  rw [← hmap]
  exact wbMerges_eq_spanMerges _

/-- Witness for claim C1 at a concrete agreeing column. -/
theorem claim_C1_witness :
    colAgrees [["선택 1"], ["선택 1"], ["O"]] 0 = true ∧
    ((colOf [["선택 1"], ["선택 1"], ["O"]] 0).map get_val_display
        = (colOf [["선택 1"], ["선택 1"], ["O"]] 0).map norm ∧
      wbMerges ((colOf [["선택 1"], ["선택 1"], ["O"]] 0).map norm)
        = spanMerges 0 (htmlSpanSkip ((colOf [["선택 1"], ["선택 1"], ["O"]] 0).map get_val_display))) :=
  ⟨by decide, claim_C1_cross_format [["선택 1"], ["선택 1"], ["O"]] 0 (by decide)⟩

/-- Counterexample for claim C1 as stated: on the reachable cell value `x`
the HTML normalization yields the empty string while the workbook
normalization keeps `x` (only the uppercase `X` is in its negative list), so
for the one-plan column with values `x`, `x` the workbook output merges two
rows where the HTML output merges nothing. -/
theorem claim_C1_cex :
    get_val_display "x" ≠ norm "x" ∧
    wbMerges (["x", "x"].map norm) ≠
      spanMerges 0 (htmlSpanSkip (["x", "x"].map get_val_display)) := by
  decide

/-- Claim C2, confirmed.  The carry-forward step of the A/B/C categories: a
cell containing 선택 refreshes the per-plan per-category cache, a blank cell
inherits a present cached value, a non-blank cell without 선택 clears the
cache; and on the 3-row A-group block with cells 선택 3, blank, 선택 5 the
parsed values for the plan are 선택 3, 선택 3, 선택 5. -/
theorem claim_C2_carry_forward :
    (∀ cv val : String, hasSub "선택" val = true → carryStep cv val = (val, val)) ∧
    (∀ cv val : String, hasSub "선택" val = false → val = "" → cv ≠ "" →
      carryStep cv val = (cv, cv)) ∧
    (∀ cv val : String, hasSub "선택" val = false → val ≠ "" → carryStep cv val = ("", val)) ∧
    (parseData [["A그룹", "위암검사", "", "선택 3"], ["", "대장검사", "", ""],
        ["", "간검사", "", "선택 5"]] 0 [⟨"P1", 4, none, none, none⟩]
      = .ok (⟨[⟨"", "위암검사", "", ["선택 3"]⟩, ⟨"", "대장검사", "", ["선택 3"]⟩,
          ⟨"", "간검사", "", ["선택 5"]⟩], [], [], [], []⟩, [⟨"P1", "-", "-", "-"⟩])) := by
  refine ⟨?_, ?_, ?_, rfl⟩
  · intro cv val h
    simp [carryStep, h]
  · intro cv val h h1 h2
    subst h1
    simp [carryStep, h2, show hasSub "선택" "" = false from rfl]
  · intro cv val h h1
    simp [carryStep, h, h1]

/-- Witness for claim C2: a blank cell inherits the cached 선택 2. -/
theorem claim_C2_witness : carryStep "선택 2" "" = ("선택 2", "선택 2") :=
  claim_C2_carry_forward.2.1 "선택 2" "" (by decide) rfl (by decide)

/-- Claim C3, confirmed.  For a 선택-bearing value with a non-empty group
rule, the rule `-` forces the empty string and any other rule text replaces
the value verbatim; after the override, no value produced by the per-plan
cell processing (in any category) still contains 미선택; and with
`a_rule = "-"` every A-category value of the 3-row block is empty, overriding
both literal and inherited 선택 values. -/
theorem claim_C3_override :
    (∀ val : String, hasSub "선택" val = true → applyRule "-" val = "") ∧
    (∀ rule val : String, hasSub "선택" val = true → rule ≠ "" → rule ≠ "-" →
      applyRule rule val = rule) ∧
    (∀ (cat : String) (p : Plan) (cache : Cache) (row : List String),
      hasSub "미선택" (processCell cat p cache row).2 = false) ∧
    ((parseData [["A그룹", "위암검사", "", "선택 3"], ["", "대장검사", "", ""],
        ["", "간검사", "", "선택 5"]] 0 [⟨"P1", 4, some "-", none, none⟩]).map
        (fun r => r.1.A.map Item.values) = .ok [[""], [""], [""]]) := by
  refine ⟨?_, ?_, ?_, rfl⟩
  · intro val h
    simp [applyRule, h]
  · intro rule val h h1 h2
    simp [applyRule, h, h1, h2]
  · intro cat p cache row
    unfold processCell
    split
    · exact negMark_no _
    · exact negMark_no _

/-- Witness for claim C3: the rule `-` empties a literal 선택 value. -/
theorem claim_C3_witness : applyRule "-" "선택 1" = "" :=
  claim_C3_override.1 "선택 1" (by decide)

/-- Claim C4, corrected.  When no cell within the first 20 rows contains the
tier-unit marker 만원, `load_price_options` does not raise any error: it
returns the sentinel pair `(None, [])` to the caller (proposal_core.py lines
50-51).  No `TemplateFormatError` exists anywhere in the repository. -/
theorem claim_C4_sentinel (sheet : List (List String)) (h : noUnitMarker sheet = true) :
    loadPriceOptions sheet = (none, []) := by
  have hnone : findHeaderRow sheet = none := by
    apply findHeaderAux_none
    intro row hrow
    simp only [noUnitMarker, List.all_eq_true] at h
    have hr := h row hrow
    rw [List.any_eq_false]
    intro v hv
    have := hr v hv
    simpa using this
  unfold loadPriceOptions
  rw [hnone]

/-- Witness for claim C4 on a concrete marker-free sheet. -/
theorem claim_C4_witness :
    noUnitMarker [["abc"], [""]] = true ∧ loadPriceOptions [["abc"], [""]] = (none, []) :=
  ⟨by decide, claim_C4_sentinel [["abc"], [""]] (by decide)⟩

/-- Counterexample for claim C4 as stated: a sheet whose first rows hold no
만원 marker makes `load_price_options` return the ordinary value
`(None, [])`, i.e. it does return a normal (sentinel) result instead of
failing with a `TemplateFormatError`. -/
theorem claim_C4_cex : loadPriceOptions [["a", "b"], ["c"]] = (none, []) := rfl

/-- Claim C5, corrected.  The returned option list is sorted ascending by
`sort_key`, where `sort_key` is the integer formed by concatenating every
digit character of the label (not only its leading digits), and a label with
no digit gets key 0 — so such labels sort first, not last. -/
theorem claim_C5_sort_key (sheet : List (List String)) :
    List.Sorted (fun a b : PriceCol => a.sortKey ≤ b.sortKey) (loadPriceOptions sheet).2 ∧
    ∀ pc ∈ (loadPriceOptions sheet).2, pc.sortKey = parsePriceNum pc.priceTxt := by
  unfold loadPriceOptions
  cases findHeaderRow sheet with
  | none => simp
  | some h =>
    refine ⟨sorted_sortCols _, ?_⟩
    intro pc hm
    exact (candAux_props sheet h _ 0 pc (mem_sortCols pc _ hm)).1

/-- Witness for claim C5: a concrete option's key is its label's digit
number. -/
theorem claim_C5_witness :
    (⟨"70만원", 2, ⟨5, 1, 1⟩, 70⟩ : PriceCol).sortKey =
      parsePriceNum (⟨"70만원", 2, ⟨5, 1, 1⟩, 70⟩ : PriceCol).priceTxt :=
  (claim_C5_sort_key [["30만원", "70만원"]]).2 ⟨"70만원", 2, ⟨5, 1, 1⟩, 70⟩ (by decide)

/-- Counterexample for claim C5 as stated: the label 만원 has no parseable
integer and the label 만원5 has no leading integer, yet they sort first
(keys 0 and 5), not last, against 25만원 (key 25). -/
theorem claim_C5_cex :
    ((loadPriceOptions [["만원", "만원5", "25만원"]]).2.map PriceCol.priceTxt
      = ["만원", "만원5", "25만원"]) ∧
    ((loadPriceOptions [["만원", "만원5", "25만원"]]).2.map PriceCol.priceTxt
      ≠ ["25만원", "만원", "만원5"]) :=
  ⟨rfl, by decide⟩

/-- Claim C6, confirmed.  The HTML merge computation is a per-column vertical
run-length encoding: a non-empty run head receives as rowspan one plus the
number of consecutive equal rows below it, those rows being marked skipped
(absorbed); an empty value yields rowspan 1, unskipped, and absorbs nothing;
and on the one-column grid 선택 3, 선택 3, X the display row 0 gets span 2,
row 1 is absorbed, and row 2 has span 1 with empty display value, the
workbook merge reporting the identical single range. -/
theorem claim_C6_rle :
    (∀ (v : String) (rest : List String), v ≠ "" →
      htmlSpanAux 0 (v :: rest) = (spanCount v rest + 1, false) ::
        (List.replicate (spanCount v rest) (1, true) ++
          htmlSpanAux 0 (rest.drop (spanCount v rest)))) ∧
    (∀ rest : List String, htmlSpanAux 0 ("" :: rest) = (1, false) :: htmlSpanAux 0 rest) ∧
    htmlSpanSkip (["선택 3", "선택 3", "X"].map get_val_display)
      = [(2, false), (1, true), (1, false)] ∧
    get_val_display "X" = "" ∧
    wbMerges (["선택 3", "선택 3", "X"].map norm) = [(0, 2)] := by
  refine ⟨?_, ?_, by decide, rfl, by decide⟩
  · intro v rest hv
    simp only [htmlSpanAux, if_neg hv]
    rw [htmlSpanAux_pending rest (spanCount v rest),
      Nat.min_eq_left (spanCount_le v rest)]
  · intro rest
    simp [htmlSpanAux]

/-- Witness for claim C6: the run-length equation at a concrete non-empty
run head. -/
theorem claim_C6_witness :
    htmlSpanAux 0 ["q", "q", "r"] = (spanCount "q" ["q", "r"] + 1, false) ::
      (List.replicate (spanCount "q" ["q", "r"]) (1, true) ++
        htmlSpanAux 0 (["q", "r"].drop (spanCount "q" ["q", "r"]))) :=
  claim_C6_rle.1 "q" ["q", "r"] (by decide)

/-- Claim C7, confirmed.  Every item appended to any category bucket by a
successful parse carries exactly one value per plan, in plan-list order. -/
theorem claim_C7_values_length (sheet : List (List String)) (headerRow : Nat)
    (plans : List Plan) (pd : ParsedData) (sm : List Summary)
    (h : parseData sheet headerRow plans = .ok (pd, sm)) :
    ∀ it ∈ allItems pd, it.values.length = plans.length := by
  unfold parseData at h
  cases hp : parseRows plans (sheet.drop headerRow)
      ⟨"", List.replicate plans.length ⟨"", "", ""⟩⟩ ⟨[], [], [], [], []⟩ with
  | error e => rw [hp] at h; cases h
  | ok s =>
    rw [hp] at h
    injection h with h'
    injection h' with ha hb
    rw [← ha]
    exact parseRows_inv plans (sheet.drop headerRow) _ _ s.1 s.2
      (by simp) (by intro it hit; simp [allItems] at hit) hp

/-- Witness for claim C7 on a concrete two-plan parse. -/
theorem claim_C7_witness :
    (⟨"", "혈액검사", "주석", ["O", "X"]⟩ : Item).values.length = 2 :=
  claim_C7_values_length [["B그룹", "혈액검사", "주석", "O", "X"]] 0
    [⟨"P1", 4, none, none, none⟩, ⟨"P2", 5, none, none, none⟩]
    ⟨[], [⟨"", "혈액검사", "주석", ["O", "X"]⟩], [], [], []⟩
    [⟨"P1", "-", "-", "-"⟩, ⟨"P2", "-", "-", "-"⟩] rfl
    ⟨"", "혈액검사", "주석", ["O", "X"]⟩ (by decide)

/-- Claim C8, a code bug.  The row walk is not exception-free on every sheet:
a row with exactly two cells whose second cell is a non-empty item name
reaches the unguarded description access `row[2]` (proposal_core.py line
122), which raises `IndexError: tuple index out of range`, contradicting the
tolerant-parse policy that the surrounding guards (lines 108 and 129)
otherwise implement.  This theorem evaluates the embedded parser at that
failing input. -/
theorem claim_C8_index_bug :
    parseData [["A그룹", "위내시경"]] 0 [⟨"P", 3, none, none, none⟩]
      = .error "IndexError: tuple index out of range" := rfl

/-- Claim C9, confirmed.  The display normalization canonicalizes every
spelling of a 선택-plus-number token to exactly one space between the token
and the digit run: the three spec instances, and in general for any
whitespace run between the token and a non-empty digit run. -/
theorem claim_C9_display_canon :
    (get_val_display "선택5" = "선택 5" ∧ get_val_display "선택 5" = "선택 5" ∧
      get_val_display "선택   5" = "선택 5") ∧
    (∀ ws ds : List Char, (∀ c ∈ ws, c.isWhitespace = true) → ds ≠ [] →
      (∀ c ∈ ds, c.isDigit = true) →
      get_val_display ⟨'선' :: '택' :: (ws ++ ds)⟩ = ⟨'선' :: '택' :: ' ' :: ds⟩) := by
  refine ⟨⟨rfl, rfl, rfl⟩, ?_⟩
  intro ws ds hws hne hds
  have hchars : ∀ c ∈ '선' :: '택' :: (ws ++ ds), ¬c = '기' := by
    intro c hc
    rcases List.mem_cons.mp hc with rfl | hc
    · decide
    rcases List.mem_cons.mp hc with rfl | hc
    · decide
    rcases List.mem_append.mp hc with hc | hc
    · intro heq
      subst heq
      have := hws _ hc
      simp at this
    · intro heq
      subst heq
      have := hds _ hc
      simp at this
  have hgi : hasSub "기본" (⟨'선' :: '택' :: (ws ++ ds)⟩ : String) = false := by
    unfold hasSub
    exact hasSubL_head_false '기' ['본'] _ hchars
  have hsel : hasSub "선택" (⟨'선' :: '택' :: (ws ++ ds)⟩ : String) = true := by
    simp [hasSub, hasSubL, hasLead]
  unfold get_val_display
  rw [if_neg (by simp [String.ext_iff])]
  rw [if_neg (by simp [String.ext_iff, hgi])]
  rw [if_pos hsel]
  unfold normalize_text
  rw [show (⟨'선' :: '택' :: (ws ++ ds)⟩ : String).data = '선' :: '택' :: (ws ++ ds) from rfl]
  rw [normSub_token ws ds hws hne hds]

/-- Witness for claim C9 at a concrete spacing. -/
theorem claim_C9_witness :
    get_val_display ⟨'선' :: '택' :: ([' ', ' '] ++ ['7'])⟩ = ⟨'선' :: '택' :: ' ' :: ['7']⟩ :=
  claim_C9_display_canon.2 [' ', ' '] ['7'] (by decide) (by decide) (by decide)

/-- Claim C10, confirmed.  The exclusion test uses substring containment, so
any label containing 10만원 or 15만원 is excluded from the returned options,
not only the two exact low-tier labels: on a header with 110만원 and 25만원
only the latter is returned, although 110만원 equals neither excluded
label. -/
theorem claim_C10_substring_exclusion :
    (∀ (sheet : List (List String)) (pc : PriceCol), pc ∈ (loadPriceOptions sheet).2 →
      hasSub "10만원" pc.priceTxt = false ∧ hasSub "15만원" pc.priceTxt = false) ∧
    ((loadPriceOptions [["110만원", "25만원"]]).2.map PriceCol.priceTxt = ["25만원"]) ∧
    hasSub "10만원" "110만원" = true ∧ "110만원" ≠ "10만원" ∧ "110만원" ≠ "15만원" := by
  refine ⟨?_, rfl, by decide, by decide, by decide⟩
  intro sheet pc hm
  unfold loadPriceOptions at hm
  cases hf : findHeaderRow sheet with
  | none => rw [hf] at hm; simp at hm
  | some h =>
    rw [hf] at hm
    simp only at hm
    have hp := candAux_props sheet h _ 0 pc (mem_sortCols pc _ hm)
    exact ⟨hp.2.1, hp.2.2⟩

/-- Witness for claim C10 at a concrete returned option. -/
theorem claim_C10_witness :
    hasSub "10만원" (⟨"25만원", 1, ⟨3, 0, 0⟩, 25⟩ : PriceCol).priceTxt = false ∧
    hasSub "15만원" (⟨"25만원", 1, ⟨3, 0, 0⟩, 25⟩ : PriceCol).priceTxt = false :=
  claim_C10_substring_exclusion.1 [["25만원"]] ⟨"25만원", 1, ⟨3, 0, 0⟩, 25⟩ (by decide)

end Proposal
